import Mathlib

/-!
Verification development for the track-player repository.

This file gives a shallow embedding of the platform-agnostic player core
(`QueueManager`, `EqualizerManager`, `EventEmitter`, `BaseTrackPlayer`) and
proves or refutes the frozen specification claims about it.

JavaScript numbers are modelled as `ℚ` (all values the code manipulates are
exact decimals), queue indices as `Int` (the code freely compares possibly
negative indices against lengths), and thrown exceptions as error results.

The file is laid out with all definitions first, followed by all theorems.
-/

namespace TrackPlayer

/-- A playable audio item (only the fields the core logic reads). -/
structure Track where
  url : String
  title : String
  isLiveStream : Bool := false
deriving DecidableEq, Repr

/-! ## QueueManager (src/packages/core/src/QueueManager.ts)

The queue manager holds the track list and the current-index cursor.
-/

/-- Queue manager state: the track list and the `currentIndex` cursor
(−1 meaning "no active track"). -/
structure QueueState where
  queue : List Track
  currentIndex : Int
deriving DecidableEq, Repr

namespace QueueManager

/-- `add(tracks, insertBeforeIndex?)`: appends, or inserts before the given
index when that index is in `[0, length]`; snaps the cursor to 0 when the
queue was empty and no current track existed.  Mirrors `QueueManager.add`. -/
def add (st : QueueState) (tracks : List Track) (insertBeforeIndex : Option Int) : QueueState :=
  if tracks = [] then st
  else
    let wasEmpty := st.queue.length = 0
    let st' :=
      match insertBeforeIndex with
      | some i =>
        if 0 ≤ i ∧ i ≤ (st.queue.length : Int) then
          { queue := st.queue.take i.toNat ++ tracks ++ st.queue.drop i.toNat,
            currentIndex :=
              if st.currentIndex ≥ i then st.currentIndex + tracks.length
              else st.currentIndex }
        else { st with queue := st.queue ++ tracks }
      | none => { st with queue := st.queue ++ tracks }
    if wasEmpty ∧ st'.currentIndex = -1 then { st' with currentIndex := 0 }
    else st'

/-- Descending insertion used to model `indices.sort((a, b) => b - a)`. -/
def insertDesc (x : Int) : List Int → List Int
  | [] => [x]
  | y :: ys => if x > y then x :: y :: ys else y :: insertDesc x ys

/-- Descending sort used to model `indices.sort((a, b) => b - a)`. -/
def sortDesc : List Int → List Int
  | [] => []
  | x :: xs => insertDesc x (sortDesc xs)

/-- The loop body of `QueueManager.remove`: walks the (descending-sorted)
indices, erasing each index that is in range of the current queue and
adjusting the tracked `newIndex`.  `origCI` is `this.currentIndex`, which the
source never reassigns until after the loop. -/
def removeLoop (origCI : Int) : List Int → List Track → Int → Bool → List Track × Int × Bool
  | [], q, newIndex, rct => (q, newIndex, rct)
  | i :: rest, q, newIndex, rct =>
    if 0 ≤ i ∧ i < (q.length : Int) then
      let q' := q.eraseIdx i.toNat
      if i < newIndex then
        removeLoop origCI rest q' (newIndex - 1) rct
      else if i = origCI then
        let ni : Int := if 0 < q'.length then min origCI ((q'.length : Int) - 1) else -1
        removeLoop origCI rest q' ni true
      else
        removeLoop origCI rest q' newIndex rct
    else
      removeLoop origCI rest q newIndex rct

/-- Result record of `QueueManager.remove`. -/
structure RemoveResult where
  state : QueueState
  removedCurrentTrack : Bool
  newIndex : Int
deriving DecidableEq, Repr

/-- `remove(indices)`: sorts the requested indices in descending order and
erases the ones that are in range, adjusting the cursor.  Mirrors
`QueueManager.remove`. -/
def remove (st : QueueState) (indices : List Int) : RemoveResult :=
  if indices = [] then ⟨st, false, st.currentIndex⟩
  else
    let sorted := sortDesc indices
    let r := removeLoop st.currentIndex sorted st.queue st.currentIndex false
    ⟨⟨r.1, r.2.1⟩, r.2.2, r.2.1⟩

/-- `move(fromIndex, toIndex)`: relocates one track; errors (`none`) when
either index is out of bounds; no-op when the indices are equal.  Mirrors
`QueueManager.move`. -/
def move (st : QueueState) (fromIndex toIndex : Int) : Option QueueState :=
  if fromIndex < 0 ∨ (st.queue.length : Int) ≤ fromIndex then none
  else if toIndex < 0 ∨ (st.queue.length : Int) ≤ toIndex then none
  else if fromIndex = toIndex then some st
  else
    match st.queue.get? fromIndex.toNat with
    | none => some st
    | some track =>
      let q := (st.queue.eraseIdx fromIndex.toNat)
      let q := q.take toIndex.toNat ++ [track] ++ q.drop toIndex.toNat
      let ci :=
        if st.currentIndex = fromIndex then toIndex
        else if fromIndex < st.currentIndex ∧ st.currentIndex ≤ toIndex then
          st.currentIndex - 1
        else if st.currentIndex < fromIndex ∧ toIndex ≤ st.currentIndex then
          st.currentIndex + 1
        else st.currentIndex
      some ⟨q, ci⟩

/-- `skip(index)`: pure cursor update; errors (`none`) when the index is out
of bounds.  Returns the new state with the previous index.  Mirrors
`QueueManager.skip`. -/
def skip (st : QueueState) (index : Int) : Option (QueueState × Int) :=
  if index < 0 ∨ (st.queue.length : Int) ≤ index then none
  else some ({ st with currentIndex := index }, st.currentIndex)

/-- Spec-side description of removal ("deletes exactly the tracks at the
in-range indices"): keeps each track whose position, counted from `k`, is not
listed in `idxs`. -/
def keepFrom (idxs : List Int) : Int → List Track → List Track
  | _, [] => []
  | k, t :: ts =>
    if k ∈ idxs then keepFrom idxs (k + 1) ts else t :: keepFrom idxs (k + 1) ts

/-- Projection of `removeLoop` onto the queue component: the queue evolution
does not depend on the cursor bookkeeping. -/
def removeQueue : List Int → List Track → List Track
  | [], q => q
  | i :: rest, q =>
    if 0 ≤ i ∧ i < (q.length : Int) then removeQueue rest (q.eraseIdx i.toNat)
    else removeQueue rest q

end QueueManager

/-- Concrete track A, used for concrete evaluations. -/
def trackA : Track := ⟨"a.mp3", "A", false⟩

/-- Concrete track B. -/
def trackB : Track := ⟨"b.mp3", "B", false⟩

/-- Concrete track C. -/
def trackC : Track := ⟨"c.mp3", "C", false⟩

/-! ## EqualizerManager (src/packages/core/src/EqualizerManager.ts)

The pre-amp-bearing variant, which the spec designates as authoritative.
-/

/-- One equalizer band: centre frequency (Hz), gain (dB), quality factor. -/
structure EqualizerBand where
  frequency : ℚ
  gain : ℚ
  Q : ℚ
deriving DecidableEq, Repr

/-- Equalizer state: enabled flag, derived pre-amp gain, and the bands. -/
structure EqualizerState where
  enabled : Bool
  preAmpGain : ℚ
  bands : List EqualizerBand
deriving DecidableEq, Repr

/-- The fixed ten equalizer centre frequencies (`EQUALIZER_FREQUENCIES`). -/
def EQUALIZER_FREQUENCIES : List ℚ :=
  [32, 64, 125, 250, 500, 1000, 2000, 4000, 8000, 16000]

/-- Default quality factor (`DEFAULT_Q`). -/
def DEFAULT_Q : ℚ := 1

/-- Minimum band gain in dB (`GAIN_MIN`). -/
def GAIN_MIN : ℚ := -12

/-- Maximum band gain in dB (`GAIN_MAX`). -/
def GAIN_MAX : ℚ := 12

/-- The nine named presets of `EQUALIZER_PRESETS`. -/
inductive EqualizerPreset
  | flat
  | rock
  | pop
  | jazz
  | classical
  | electronic
  | vocal
  | bass
  | treble
deriving DecidableEq, Repr

/-- Gain table of `EQUALIZER_PRESETS`. -/
def presetGains : EqualizerPreset → List ℚ
  | .flat => [0, 0, 0, 0, 0, 0, 0, 0, 0, 0]
  | .rock => [4, 3, 1, -1, 0, 1, 3, 4, 4, 3]
  | .pop => [1, 2, 3, 2, 0, -1, -1, 1, 2, 3]
  | .jazz => [2, 1, 0, 1, 2, 2, 1, 0, 1, 2]
  | .classical => [3, 2, 1, 0, -1, -1, 0, 1, 2, 3]
  | .electronic => [5, 4, 2, 0, -1, 1, 2, 3, 4, 5]
  | .vocal => [0, -1, 0, 2, 4, 3, 2, 1, 0, -1]
  | .bass => [6, 5, 4, 2, 1, 0, -1, -2, -2, -2]
  | .treble => [-2, -2, -1, 0, 1, 2, 4, 5, 6, 6]

namespace EqualizerManager

/-- `createDefaultBands()`: ten flat bands at the fixed frequencies. -/
def createDefaultBands : List EqualizerBand :=
  EQUALIZER_FREQUENCIES.map (fun frequency => ⟨frequency, 0, DEFAULT_Q⟩)

/-- The constructor state: disabled, zero pre-amp, default bands. -/
def initial : EqualizerState := ⟨false, 0, createDefaultBands⟩

/-- `clampGain(gain)`: clamp to `[GAIN_MIN, GAIN_MAX]`. -/
def clampGain (gain : ℚ) : ℚ := max GAIN_MIN (min GAIN_MAX gain)

/-- `calculatePreAmpGain()`: recompute the stored pre-amp gain from the
current band gains (reduce with accumulator 0, negate positive maxima, write
only when the value changed). -/
def calculatePreAmpGain (s : EqualizerState) : EqualizerState :=
  let maxGain := s.bands.foldl (fun m b => if b.gain > m then b.gain else m) 0
  let newPreAmpGain := if maxGain > 0 then -maxGain else 0
  if newPreAmpGain ≠ s.preAmpGain then { s with preAmpGain := newPreAmpGain } else s

/-- `setEnabled(enabled)` (stored-state part; the callbacks it fires carry no
stored state). -/
def setEnabled (s : EqualizerState) (enabled : Bool) : EqualizerState :=
  if s.enabled = enabled then s else { s with enabled := enabled }

/-- `setBandGain(index, gain)`: `none` models the out-of-range throw. -/
def setBandGain (s : EqualizerState) (index : Int) (gain : ℚ) : Option EqualizerState :=
  if index < 0 ∨ (s.bands.length : Int) ≤ index then none
  else
    let clampedGain := clampGain gain
    match s.bands.get? index.toNat with
    | none => some s
    | some band =>
      some (calculatePreAmpGain
        { s with bands := s.bands.set index.toNat { band with gain := clampedGain } })

/-- `setBands(bands)`: `none` models the length-mismatch throw; every slot's
frequency, gain (clamped) and Q are overwritten from the input. -/
def setBands (s : EqualizerState) (bands : List EqualizerBand) : Option EqualizerState :=
  if bands.length ≠ s.bands.length then none
  else
    some (calculatePreAmpGain
      { s with bands := bands.map (fun b => ⟨b.frequency, clampGain b.gain, b.Q⟩) })

/-- The per-index gain overwrite of `setPreset`: while both lists are
non-empty the band at each position takes the clamped preset gain; bands
beyond the preset length are kept as they are. -/
def applyGains : List EqualizerBand → List ℚ → List EqualizerBand
  | [], _ => []
  | bs, [] => bs
  | b :: bs, g :: gs => { b with gain := clampGain g } :: applyGains bs gs

/-- `setPreset(preset)` (preset names are an enumerated type here, so the
unknown-preset throw cannot fire). -/
def setPreset (s : EqualizerState) (preset : EqualizerPreset) : EqualizerState :=
  calculatePreAmpGain { s with bands := applyGains s.bands (presetGains preset) }

/-- `reset()`: all gains back to 0 dB. -/
def reset (s : EqualizerState) : EqualizerState :=
  calculatePreAmpGain { s with bands := s.bands.map (fun b => { b with gain := 0 }) }

/-- `getPreAmpGain()`. -/
def getPreAmpGain (s : EqualizerState) : ℚ := s.preAmpGain

/-- `getBandGain(index)`: `none` models the out-of-range throw. -/
def getBandGain (s : EqualizerState) (index : Int) : Option ℚ :=
  if index < 0 ∨ (s.bands.length : Int) ≤ index then none
  else some (((s.bands.get? index.toNat).map (·.gain)).getD 0)

/-- Spec-side pre-amp formula from the claim: `−max(0, maximum band gain)`.
Folding `max` over the gains starting at 0 is exactly `max(0, maximum)`. -/
def specPreAmp (bands : List EqualizerBand) : ℚ := -((bands.map (·.gain)).foldl max 0)

end EqualizerManager

/-- One public equalizer operation, for stating invariants over operation
sequences. -/
inductive EqOp
  | setEnabled (enabled : Bool)
  | setBandGain (index : Int) (gain : ℚ)
  | setBands (bands : List EqualizerBand)
  | setPreset (preset : EqualizerPreset)
  | reset

/-- Runs one operation; an operation that throws leaves the state unchanged
(every throw in the source happens before any mutation). -/
def applyEqOp (s : EqualizerState) : EqOp → EqualizerState
  | .setEnabled e => EqualizerManager.setEnabled s e
  | .setBandGain i g => (EqualizerManager.setBandGain s i g).getD s
  | .setBands bs => (EqualizerManager.setBands s bs).getD s
  | .setPreset p => EqualizerManager.setPreset s p
  | .reset => EqualizerManager.reset s

/-- Whether an operation is a `setBands` call. -/
def EqOp.isSetBands : EqOp → Bool
  | .setBands _ => true
  | _ => false

/-- A concrete operation sequence without `setBands`, for witnesses. -/
def eqOpsExample : List EqOp :=
  [EqOp.setPreset EqualizerPreset.rock, EqOp.setBandGain 0 20, EqOp.reset]

/-! ## BaseTrackPlayer (src/packages/core/src/BaseTrackPlayer.ts)

The playback state machine.  The platform adapter is modelled as a record of
the results its transport calls produce (`Except` for the rejectable
promises), and each public method is a pure function from player state to an
`Outcome`: the new player state, the list of events emitted (in order), and
the normal or thrown result.  Mutations the source performs before a throw
persist in the returned state, exactly as in the JavaScript. -/

/-- Playback states (`State` in constants.ts). -/
inductive State
  | none
  | ready
  | playing
  | paused
  | stopped
  | buffering
  | error
deriving DecidableEq, Repr

/-- Repeat modes (`RepeatMode` in constants.ts). -/
inductive RepeatMode
  | off
  | track
  | queue
deriving DecidableEq, Repr

/-- Player capabilities (`Capability` in constants.ts). -/
inductive Capability
  | play
  | pause
  | stop
  | skip
  | skipToNext
  | skipToPrevious
  | seekTo
  | seekBy
  | setVolume
  | setRate
deriving DecidableEq, Repr

/-- The string value of each capability in the source enum. -/
def capabilityName : Capability → String
  | .play => "play"
  | .pause => "pause"
  | .stop => "stop"
  | .skip => "skip"
  | .skipToNext => "skip-to-next"
  | .skipToPrevious => "skip-to-previous"
  | .seekTo => "seek-to"
  | .seekBy => "seek-by"
  | .setVolume => "set-volume"
  | .setRate => "set-rate"

/-- Event tags (`Event` in constants.ts). -/
inductive Event
  | playbackState
  | playbackError
  | playbackTrackChanged
  | playbackProgressUpdated
  | playbackQueueEnded
deriving DecidableEq, Repr

/-- The string value of each event tag in the source enum. -/
def eventName : Event → String
  | .playbackState => "playback-state"
  | .playbackError => "playback-error"
  | .playbackTrackChanged => "playback-track-changed"
  | .playbackProgressUpdated => "playback-progress-updated"
  | .playbackQueueEnded => "playback-queue-ended"

/-- Event payloads (the tagged union of the five payload shapes). -/
inductive EventData
  | playbackState (state : State)
  | playbackError (error : String) (code : Option String)
  | playbackTrackChanged (prevTrack : Option Int) (nextTrack : Int)
  | playbackProgressUpdated (position : ℚ) (duration : ℚ) (buffered : ℚ)
  | playbackQueueEnded (track : Option Int)
deriving DecidableEq, Repr

/-- The tag of a payload. -/
def EventData.tag : EventData → Event
  | .playbackState _ => Event.playbackState
  | .playbackError _ _ => Event.playbackError
  | .playbackTrackChanged _ _ => Event.playbackTrackChanged
  | .playbackProgressUpdated _ _ _ => Event.playbackProgressUpdated
  | .playbackQueueEnded _ => Event.playbackQueueEnded

/-- The thrown errors of the error taxonomy (errors.ts, plus plain `Error`
throws as `genericError` and rethrown adapter failures as `adapterError`). -/
inductive PlayerError
  | playerNotInitialized
  | noTrackLoaded
  | capabilityNotEnabled (capability : Capability)
  | trackNotFound (index : Int)
  | adapterError (message : String)
  | genericError (message : String)
deriving DecidableEq, Repr

/-- The human-readable message of each error (errors.ts). -/
def errorMessage : PlayerError → String
  | .playerNotInitialized => "Player not initialized"
  | .noTrackLoaded => "No track is loaded"
  | .capabilityNotEnabled c => capabilityName c ++ " capability not enabled"
  | .trackNotFound i => "Track index " ++ toString i ++ " is out of bounds"
  | .adapterError m => m
  | .genericError m => m

/-- The platform adapter, modelled by the results its calls produce: a
rejected promise is `Except.error` carrying the failure message. -/
structure Adapter where
  stopRes : Except String Unit
  loadRes : Track → Except String Unit
  playRes : Except String Unit
  pauseRes : Except String Unit
  seekRes : Except String Unit
  position : ℚ
  duration : ℚ
  bufferedPosition : ℚ
  isPlaying : Bool

/-- The core-owned player state (the mutable fields of `BaseTrackPlayer`,
with the queue manager inlined). -/
structure Player where
  state : State
  queue : List Track
  currentIndex : Int
  playWhenReady : Bool
  repeatMode : RepeatMode
  isChangingTrack : Bool
  persistentRate : ℚ
  isSetup : Bool
  capabilities : List Capability
deriving DecidableEq, Repr

/-- The result of one public method: the player state after the call, the
events emitted (in emission order), and the returned or thrown result. -/
structure Outcome where
  pl : Player
  evs : List EventData
  res : Except PlayerError Unit
deriving Repr

/-- `DEFAULT_CAPABILITIES`: all ten capabilities. -/
def DEFAULT_CAPABILITIES : List Capability :=
  [Capability.play, Capability.pause, Capability.stop, Capability.skip,
    Capability.skipToNext, Capability.skipToPrevious, Capability.seekTo,
    Capability.seekBy, Capability.setVolume, Capability.setRate]

/-- `MIN_RATE` (0.25). -/
def MIN_RATE : ℚ := 1 / 4

/-- `MAX_RATE` (4.0). -/
def MAX_RATE : ℚ := 4

/-- `clampVolume` from utils.ts. -/
def clampVolume (volume : ℚ) : ℚ := max 0 (min 1 volume)

/-- `clampRate` from utils.ts. -/
def clampRate (rate : ℚ) : ℚ := max MIN_RATE (min MAX_RATE rate)

/-- `QueueManager.getTrack` as used through the player. -/
def Player.getTrack (p : Player) (index : Int) : Option Track :=
  if 0 ≤ index ∧ index < (p.queue.length : Int) then p.queue.get? index.toNat else none

/-- `QueueManager.getCurrentTrack`. -/
def Player.getCurrentTrack (p : Player) : Option Track := p.getTrack p.currentIndex

/-- `updateState(state)`: store the new state and emit a state-changed event,
but only when the value actually differs. -/
def updateState (p : Player) (s : State) : Player × List EventData :=
  if p.state ≠ s then ({ p with state := s }, [EventData.playbackState s]) else (p, [])

/-- `emitProgress()`: one progress event from live adapter queries; a live
stream reports duration −1. -/
def emitProgressEvents (a : Adapter) (p : Player) : List EventData :=
  let duration :=
    if (p.getCurrentTrack.map (·.isLiveStream)).getD false then (-1 : ℚ) else a.duration
  [EventData.playbackProgressUpdated a.position duration a.bufferedPosition]

/-- The catch-block of `loadTrack`: clear the re-entrancy flag, emit a
playback-error event, transition to `Error`, and rethrow. -/
def loadTrackFail (p : Player) (e : String) : Outcome :=
  let p1 := { p with isChangingTrack := false }
  let u := updateState p1 State.error
  ⟨u.1, EventData.playbackError ("Failed to load track: " ++ e) none :: u.2,
    Except.error (PlayerError.adapterError e)⟩

/-- `loadTrack(track, preservePlayState)`: guarded by the re-entrancy flag;
stops then loads through the adapter, restores the play intent, reapplies the
rate (1.0 for live streams — an adapter-only effect), and transitions to
`Buffering`; any adapter failure goes through `loadTrackFail`. -/
def loadTrackM (a : Adapter) (p : Player) (track : Track) (preservePlayState : Bool) : Outcome :=
  if p.isSetup then
    if p.isChangingTrack then
      ⟨p, [], Except.error (PlayerError.genericError
        "Another track is currently loading. Please wait for the current operation to complete.")⟩
    else
      let p1 := { p with isChangingTrack := true }
      let wasPlaying := preservePlayState && (p.playWhenReady || p.state == State.playing)
      match a.stopRes with
      | Except.error e => loadTrackFail p1 e
      | Except.ok _ =>
        match a.loadRes track with
        | Except.error e => loadTrackFail p1 e
        | Except.ok _ =>
          let p2 := if preservePlayState then { p1 with playWhenReady := wasPlaying } else p1
          let u := updateState p2 State.buffering
          ⟨u.1, u.2, Except.ok ()⟩
  else ⟨p, [], Except.error PlayerError.playerNotInitialized⟩

/-- The tail of `play()`: delegate to the adapter, emitting a playback-error
event and rethrowing on failure. -/
def playRest (a : Adapter) (p : Player) (evs : List EventData) : Outcome :=
  match a.playRes with
  | Except.error e =>
    ⟨p, evs ++ [EventData.playbackError ("Failed to play: " ++ e) none],
      Except.error (PlayerError.adapterError e)⟩
  | Except.ok _ => ⟨p, evs, Except.ok ()⟩

/-- `play()`: select track 0 when none is active but the queue is non-empty
(loading it and emitting a track-changed event with `prevTrack = null`), set
the play intent, and delegate to the adapter. -/
def playM (a : Adapter) (p : Player) : Outcome :=
  if p.isSetup then
    if Capability.play ∈ p.capabilities then
      if p.currentIndex = -1 ∧ 0 < p.queue.length then
        let p1 := { p with currentIndex := 0 }
        match p1.getCurrentTrack with
        | some firstTrack =>
          let lo := loadTrackM a p1 firstTrack false
          match lo.res with
          | Except.error e => ⟨lo.pl, lo.evs, Except.error e⟩
          | Except.ok _ =>
            playRest a { lo.pl with playWhenReady := true }
              (lo.evs ++ [EventData.playbackTrackChanged none 0])
        | none => playRest a { p1 with playWhenReady := true } []
      else if p.currentIndex = -1 then
        ⟨p, [], Except.error PlayerError.noTrackLoaded⟩
      else playRest a { p with playWhenReady := true } []
    else ⟨p, [], Except.error (PlayerError.capabilityNotEnabled Capability.play)⟩
  else ⟨p, [], Except.error PlayerError.playerNotInitialized⟩

/-- `pause()`. -/
def pauseM (a : Adapter) (p : Player) : Outcome :=
  if p.isSetup then
    if Capability.pause ∈ p.capabilities then
      if p.currentIndex = -1 then ⟨p, [], Except.error PlayerError.noTrackLoaded⟩
      else
        let p1 := { p with playWhenReady := false }
        match a.pauseRes with
        | Except.error e => ⟨p1, [], Except.error (PlayerError.adapterError e)⟩
        | Except.ok _ => ⟨p1, [], Except.ok ()⟩
    else ⟨p, [], Except.error (PlayerError.capabilityNotEnabled Capability.pause)⟩
  else ⟨p, [], Except.error PlayerError.playerNotInitialized⟩

/-- `stop()`. -/
def stopM (a : Adapter) (p : Player) : Outcome :=
  if p.isSetup then
    if Capability.stop ∈ p.capabilities then
      if p.currentIndex = -1 then ⟨p, [], Except.error PlayerError.noTrackLoaded⟩
      else
        let p1 := { p with playWhenReady := false }
        match a.stopRes with
        | Except.error e => ⟨p1, [], Except.error (PlayerError.adapterError e)⟩
        | Except.ok _ =>
          let u := updateState p1 State.stopped
          ⟨u.1, u.2, Except.ok ()⟩
    else ⟨p, [], Except.error (PlayerError.capabilityNotEnabled Capability.stop)⟩
  else ⟨p, [], Except.error PlayerError.playerNotInitialized⟩

/-- `seekTo(position)`. -/
def seekToM (a : Adapter) (p : Player) (position : ℚ) : Outcome :=
  if p.isSetup then
    if Capability.seekTo ∈ p.capabilities then
      if p.currentIndex = -1 then ⟨p, [], Except.error PlayerError.noTrackLoaded⟩
      else
        match a.seekRes with
        | Except.error e => ⟨p, [], Except.error (PlayerError.adapterError e)⟩
        | Except.ok _ => ⟨p, emitProgressEvents a p, Except.ok ()⟩
    else ⟨p, [], Except.error (PlayerError.capabilityNotEnabled Capability.seekTo)⟩
  else ⟨p, [], Except.error PlayerError.playerNotInitialized⟩

/-- `seekBy(offset)`: the clamped target position
`max(0, min(position + offset, duration − 0.01))` is handed to the adapter. -/
def seekByM (a : Adapter) (p : Player) (offset : ℚ) : Outcome :=
  if p.isSetup then
    if Capability.seekBy ∈ p.capabilities then
      if p.currentIndex = -1 then ⟨p, [], Except.error PlayerError.noTrackLoaded⟩
      else
        let _newPosition := max 0 (min (a.position + offset) (a.duration - 1 / 100))
        match a.seekRes with
        | Except.error e => ⟨p, [], Except.error (PlayerError.adapterError e)⟩
        | Except.ok _ => ⟨p, emitProgressEvents a p, Except.ok ()⟩
    else ⟨p, [], Except.error (PlayerError.capabilityNotEnabled Capability.seekBy)⟩
  else ⟨p, [], Except.error PlayerError.playerNotInitialized⟩

/-- `setVolume(volume)`: the clamped volume goes to the adapter; no core
state changes. -/
def setVolumeM (a : Adapter) (p : Player) (volume : ℚ) : Outcome :=
  if p.isSetup then
    if Capability.setVolume ∈ p.capabilities then
      let _v := clampVolume volume
      ⟨p, [], Except.ok ()⟩
    else ⟨p, [], Except.error (PlayerError.capabilityNotEnabled Capability.setVolume)⟩
  else ⟨p, [], Except.error PlayerError.playerNotInitialized⟩

/-- `setRate(rate)`: rejected for live streams; otherwise clamps and persists
the rate. -/
def setRateM (a : Adapter) (p : Player) (rate : ℚ) : Outcome :=
  if p.isSetup then
    if Capability.setRate ∈ p.capabilities then
      if (p.getCurrentTrack.map (·.isLiveStream)).getD false then
        ⟨p, [], Except.error
          (PlayerError.genericError "Cannot change playback rate for live streams")⟩
      else ⟨{ p with persistentRate := clampRate rate }, [], Except.ok ()⟩
    else ⟨p, [], Except.error (PlayerError.capabilityNotEnabled Capability.setRate)⟩
  else ⟨p, [], Except.error PlayerError.playerNotInitialized⟩

/-- The tail of `skip`: emit the track-changed event and, when playback was
active before the switch, call `play()`. -/
def skipAfterLoad (a : Adapter) (lo : Outcome) (prevIndex index : Int)
    (wasPlaying : Bool) : Outcome :=
  let evs := lo.evs ++
    [EventData.playbackTrackChanged (if 0 ≤ prevIndex then some prevIndex else none) index]
  if wasPlaying then
    let o2 := playM a lo.pl
    ⟨o2.pl, evs ++ o2.evs, o2.res⟩
  else ⟨lo.pl, evs, Except.ok ()⟩

/-- `skip(index, initialPosition?)`: capture the resume intent, move the
cursor (out-of-bounds throws), load the target track, optionally seek, emit
track-changed, and resume playback when it was active. -/
def skipM (a : Adapter) (p : Player) (index : Int) (initialPosition : Option ℚ) : Outcome :=
  if p.isSetup then
    if Capability.skip ∈ p.capabilities then
      let wasPlaying := p.state == State.playing || p.playWhenReady
      if index < 0 ∨ (p.queue.length : Int) ≤ index then
        ⟨p, [], Except.error (PlayerError.genericError
          ("Track index " ++ toString index ++ " is out of bounds"))⟩
      else
        let prevIndex := p.currentIndex
        let p1 := { p with currentIndex := index }
        match p1.getCurrentTrack with
        | none => ⟨p1, [], Except.error (PlayerError.trackNotFound index)⟩
        | some track =>
          let lo := loadTrackM a p1 track wasPlaying
          match lo.res with
          | Except.error e => ⟨lo.pl, lo.evs, Except.error e⟩
          | Except.ok _ =>
            match initialPosition with
            | some ip =>
              if 0 < ip then
                match a.seekRes with
                | Except.error e => ⟨lo.pl, lo.evs, Except.error (PlayerError.adapterError e)⟩
                | Except.ok _ => skipAfterLoad a lo prevIndex index wasPlaying
              else skipAfterLoad a lo prevIndex index wasPlaying
            | none => skipAfterLoad a lo prevIndex index wasPlaying
    else ⟨p, [], Except.error (PlayerError.capabilityNotEnabled Capability.skip)⟩
  else ⟨p, [], Except.error PlayerError.playerNotInitialized⟩

/-- `skipToNext(initialPosition?)`: resolve the target from the repeat mode
and queue boundaries, then delegate to `skip`. -/
def skipToNextM (a : Adapter) (p : Player) (initialPosition : Option ℚ) : Outcome :=
  if p.isSetup then
    if Capability.skipToNext ∈ p.capabilities then
      if p.currentIndex < 0 then ⟨p, [], Except.error PlayerError.noTrackLoaded⟩
      else if p.repeatMode = RepeatMode.track then skipM a p p.currentIndex initialPosition
      else if p.currentIndex = (p.queue.length : Int) - 1 then
        if p.repeatMode = RepeatMode.queue ∧ 0 < p.queue.length then
          skipM a p 0 initialPosition
        else ⟨p, [], Except.error (PlayerError.genericError "No next track available")⟩
      else skipM a p (p.currentIndex + 1) initialPosition
    else ⟨p, [], Except.error (PlayerError.capabilityNotEnabled Capability.skipToNext)⟩
  else ⟨p, [], Except.error PlayerError.playerNotInitialized⟩

/-- `skipToPrevious(initialPosition?)`. -/
def skipToPreviousM (a : Adapter) (p : Player) (initialPosition : Option ℚ) : Outcome :=
  if p.isSetup then
    if Capability.skipToPrevious ∈ p.capabilities then
      if p.currentIndex < 0 then ⟨p, [], Except.error PlayerError.noTrackLoaded⟩
      else if p.repeatMode = RepeatMode.track then skipM a p p.currentIndex initialPosition
      else if p.currentIndex = 0 then
        if p.repeatMode = RepeatMode.queue ∧ 0 < p.queue.length then
          skipM a p ((p.queue.length : Int) - 1) initialPosition
        else ⟨p, [], Except.error (PlayerError.genericError "No previous track available")⟩
      else skipM a p (p.currentIndex - 1) initialPosition
    else ⟨p, [], Except.error (PlayerError.capabilityNotEnabled Capability.skipToPrevious)⟩
  else ⟨p, [], Except.error PlayerError.playerNotInitialized⟩

/-- `handleTrackEnded()`: the adapter's natural-end callback, dispatched by
repeat mode.  Promise chains with `.catch(console.error)` swallow errors, so
a failing continuation leaves the state as mutated so far. -/
def handleTrackEnded (a : Adapter) (p : Player) : Player × List EventData :=
  match p.repeatMode with
  | RepeatMode.track =>
    let p1 := { p with isChangingTrack := true }
    match a.seekRes with
    | Except.error _ => (p1, [])
    | Except.ok _ =>
      let u := updateState p1 State.playing
      ({ u.1 with isChangingTrack := false }, u.2)
  | RepeatMode.queue =>
    let nextIndex :=
      if (p.queue.length : Int) - 1 ≤ p.currentIndex then 0 else p.currentIndex + 1
    let o := skipM a p nextIndex none
    match o.res with
    | Except.error _ => (o.pl, o.evs)
    | Except.ok _ =>
      let o2 := playM a o.pl
      (o2.pl, o.evs ++ o2.evs)
  | RepeatMode.off =>
    if p.currentIndex < (p.queue.length : Int) - 1 then
      let o := skipM a p (p.currentIndex + 1) none
      match o.res with
      | Except.error _ => (o.pl, o.evs)
      | Except.ok _ =>
        let o2 := playM a o.pl
        (o2.pl, o.evs ++ o2.evs)
    else
      let u := updateState p State.stopped
      let p2 := { u.1 with playWhenReady := false }
      (p2, u.2 ++ [EventData.playbackQueueEnded
        (if 0 ≤ p.currentIndex then some p.currentIndex else none)])

/-- One capability-gated public operation, for quantifying claim C3 over the
whole gated surface. -/
inductive GatedOp
  | play
  | pause
  | stop
  | skip (index : Int) (initialPosition : Option ℚ)
  | skipToNext (initialPosition : Option ℚ)
  | skipToPrevious (initialPosition : Option ℚ)
  | seekTo (position : ℚ)
  | seekBy (offset : ℚ)
  | setVolume (volume : ℚ)
  | setRate (rate : ℚ)

/-- The capability gating each operation. -/
def opCapability : GatedOp → Capability
  | .play => Capability.play
  | .pause => Capability.pause
  | .stop => Capability.stop
  | .skip _ _ => Capability.skip
  | .skipToNext _ => Capability.skipToNext
  | .skipToPrevious _ => Capability.skipToPrevious
  | .seekTo _ => Capability.seekTo
  | .seekBy _ => Capability.seekBy
  | .setVolume _ => Capability.setVolume
  | .setRate _ => Capability.setRate

/-- Dispatch of one gated operation. -/
def runOp (a : Adapter) (p : Player) : GatedOp → Outcome
  | .play => playM a p
  | .pause => pauseM a p
  | .stop => stopM a p
  | .skip i ip => skipM a p i ip
  | .skipToNext ip => skipToNextM a p ip
  | .skipToPrevious ip => skipToPreviousM a p ip
  | .seekTo pos => seekToM a p pos
  | .seekBy off => seekByM a p off
  | .setVolume v => setVolumeM a p v
  | .setRate r => setRateM a p r

/-- A well-behaved adapter for witnesses. -/
def adapterOk : Adapter :=
  ⟨Except.ok (), fun _ => Except.ok (), Except.ok (), Except.ok (), Except.ok (), 0, 0, 0, false⟩

/-- An adapter whose `load` rejects, for the claim C7 witness. -/
def adapterLoadFail : Adapter :=
  { adapterOk with loadRes := fun _ => Except.error "network error" }

/-- An initialized player configured with no capabilities. -/
def playerNoCaps : Player :=
  ⟨State.ready, [trackA], 0, false, RepeatMode.off, false, 1, true, []⟩

/-- An initialized player playing the last track of `[A, B, C]` with repeat
mode `Off`. -/
def playerAtEnd : Player :=
  ⟨State.playing, [trackA, trackB, trackC], 2, true, RepeatMode.off, false, 1, true,
    DEFAULT_CAPABILITIES⟩

/-- An initialized idle player with the full capability set. -/
def playerReady : Player :=
  ⟨State.ready, [trackA], 0, false, RepeatMode.off, false, 1, true, DEFAULT_CAPABILITIES⟩

/-! ## EventEmitter (src/packages/core/src/EventEmitter.ts)

Handlers are arbitrary effectful callbacks: given the payload and the outside
world they return the mutated world and, when they throw, the thrown message.
`emit` walks one event's registration list (a JS `Set` iterates in insertion
order, and `on` only appends) inside try/catch, so the embedding of `emit` is
a total function: the catch is in the source, and a handler failure can only
reach the diagnostic sink, never the caller. -/

/-- A registered handler: an identity (the JS function reference) plus its
behaviour. -/
structure EHandler (σ : Type) where
  id : Nat
  run : EventData → σ → σ × Option String

namespace EventEmitter

/-- `on(event, handler)` on one event's registration list: the listener set
is an identity set, so an already-registered reference is not added again;
new handlers are appended, preserving registration order.  (`on` itself is a
reserved word in Lean, hence the primed name.) -/
def on' {σ : Type} (handlers : List (EHandler σ)) (h : EHandler σ) : List (EHandler σ) :=
  if handlers.any (fun h' => h'.id == h.id) then handlers else handlers ++ [h]

/-- `emit(data)` over one event's registration list: invoke every handler in
order inside try/catch; a throwing handler's message is reported to the
diagnostic sink (the returned log, mirroring the `console.error` line) and
swallowed, and emission continues with the remaining handlers. -/
def emit {σ : Type} : List (EHandler σ) → EventData → σ → σ × List String
  | [], _, w => (w, [])
  | h :: rest, d, w =>
    match h.run d w with
    | (w', none) => emit rest d w'
    | (w', some e) =>
      let r := emit rest d w'
      (r.1, ("Error in event handler for " ++ eventName d.tag ++ ": " ++ e) :: r.2)

/-- Spec-side: the world after every registered handler has been applied in
registration order, unconditionally. -/
def applyAll {σ : Type} (handlers : List (EHandler σ)) (d : EventData) (w : σ) : σ :=
  handlers.foldl (fun w h => (h.run d w).1) w

/-- Spec-side: the diagnostic-sink messages, one per throwing handler, in
handler order. -/
def sinkLog {σ : Type} : List (EHandler σ) → EventData → σ → List String
  | [], _, _ => []
  | h :: rest, d, w =>
    match h.run d w with
    | (w', none) => sinkLog rest d w'
    | (w', some e) =>
      ("Error in event handler for " ++ eventName d.tag ++ ": " ++ e) :: sinkLog rest d w'

end EventEmitter

/-! ## Theorems -/

namespace QueueManager

theorem keepFrom_nil : ∀ (k : Int) (q : List Track), keepFrom [] k q = q
  | _, [] => rfl
  | k, _ :: ts => by simp only [keepFrom, List.not_mem_nil, if_false, keepFrom_nil (k + 1) ts]

theorem mem_insertDesc (a x : Int) (l : List Int) :
    a ∈ insertDesc x l ↔ a = x ∨ a ∈ l := by
  induction l with
  | nil => simp [insertDesc]
  | cons y ys ih =>
    simp only [insertDesc]
    split
    · simp
    · simp only [List.mem_cons, ih]
      tauto

theorem perm_insertDesc (x : Int) (l : List Int) : (insertDesc x l).Perm (x :: l) := by
  induction l with
  | nil => simp [insertDesc]
  | cons y ys ih =>
    simp only [insertDesc]
    split
    · exact List.Perm.refl _
    · exact (ih.cons y).trans (List.Perm.swap x y ys)

theorem perm_sortDesc (l : List Int) : (sortDesc l).Perm l := by
  induction l with
  | nil => exact List.Perm.refl _
  | cons x xs ih => exact (perm_insertDesc x (sortDesc xs)).trans (ih.cons x)

theorem pairwise_ge_insertDesc (x : Int) {l : List Int} (h : l.Pairwise (· ≥ ·)) :
    (insertDesc x l).Pairwise (· ≥ ·) := by
  induction l with
  | nil => simp [insertDesc]
  | cons y ys ih =>
    rcases List.pairwise_cons.mp h with ⟨hy, hys⟩
    simp only [insertDesc]
    by_cases hgt : x > y
    · rw [if_pos hgt]
      refine List.pairwise_cons.mpr ⟨?_, h⟩
      intro b hb
      rcases List.mem_cons.mp hb with rfl | hb
      · exact le_of_lt hgt
      · exact le_trans (hy b hb) (le_of_lt hgt)
    · rw [if_neg hgt]
      refine List.pairwise_cons.mpr ⟨?_, ih hys⟩
      intro b hb
      rcases (mem_insertDesc b x ys).mp hb with rfl | hb
      · exact le_of_not_lt hgt
      · exact hy b hb

theorem pairwise_ge_sortDesc (l : List Int) : (sortDesc l).Pairwise (· ≥ ·) := by
  induction l with
  | nil => simp [sortDesc]
  | cons x xs ih => exact pairwise_ge_insertDesc x ih

theorem keepFrom_congr : ∀ (q : List Track) (k : Int) (l₁ l₂ : List Int),
    (∀ j : Int, j ∈ l₁ ↔ j ∈ l₂) → keepFrom l₁ k q = keepFrom l₂ k q
  | [], _, _, _, _ => rfl
  | t :: ts, k, l₁, l₂, h => by
    simp only [keepFrom]
    by_cases hk : k ∈ l₁
    · rw [if_pos hk, if_pos ((h k).mp hk), keepFrom_congr ts (k + 1) l₁ l₂ h]
    · rw [if_neg hk, if_neg (fun hc => hk ((h k).mpr hc)), keepFrom_congr ts (k + 1) l₁ l₂ h]

theorem keepFrom_of_lt : ∀ (q : List Track) (k : Int) (idxs : List Int),
    (∀ j ∈ idxs, j < k) → keepFrom idxs k q = q
  | [], _, _, _ => rfl
  | t :: ts, k, idxs, h => by
    have hk : k ∉ idxs := fun hc => absurd (h k hc) (lt_irrefl k)
    simp only [keepFrom, if_neg hk]
    rw [keepFrom_of_lt ts (k + 1) idxs (fun j hj => lt_trans (h j hj) (by omega))]

theorem keepFrom_cons_out : ∀ (q : List Track) (k i : Int) (idxs : List Int),
    (i < k ∨ k + (q.length : Int) ≤ i) → keepFrom (i :: idxs) k q = keepFrom idxs k q
  | [], _, _, _, _ => rfl
  | t :: ts, k, i, idxs, h => by
    simp only [List.length_cons] at h
    push_cast at h
    have hne : ¬ k = i := by omega
    have hrec := keepFrom_cons_out ts (k + 1) i idxs (by omega)
    by_cases hk : k ∈ idxs
    · have h1 : k ∈ i :: idxs := List.mem_cons_of_mem _ hk
      simp only [keepFrom, if_pos hk, if_pos h1, hrec]
    · have h1 : k ∉ i :: idxs := by
        intro hc
        rcases List.mem_cons.mp hc with hc | hc
        exacts [hne hc, hk hc]
      simp only [keepFrom, if_neg hk, if_neg h1, hrec]

theorem keepFrom_cons_erase : ∀ (q : List Track) (k i : Int) (rest : List Int),
    k ≤ i → i < k + (q.length : Int) → (∀ j ∈ rest, j < i) →
    keepFrom (i :: rest) k q = keepFrom rest k (q.eraseIdx (i - k).toNat)
  | [], k, i, rest, h1, h2, _ => by simp at h2; omega
  | t :: ts, k, i, rest, h1, h2, h3 => by
    simp only [List.length_cons] at h2
    push_cast at h2
    by_cases hk : k = i
    · subst hk
      have he : ((t :: ts).eraseIdx (k - k).toNat) = ts := by
        have : (k - k).toNat = 0 := by omega
        rw [this]
        rfl
      rw [he]
      have hmem : k ∈ k :: rest := List.mem_cons_self _ _
      simp only [keepFrom, if_pos hmem]
      rw [keepFrom_of_lt ts (k + 1) (k :: rest) ?_, keepFrom_of_lt ts k rest h3]
      intro j hj
      rcases List.mem_cons.mp hj with rfl | hj
      · omega
      · have := h3 j hj
        omega
    · have hki : k < i := lt_of_le_of_ne h1 hk
      have htn : (i - k).toNat = (i - (k + 1)).toNat + 1 := by omega
      have he : (t :: ts).eraseIdx (i - k).toNat = t :: ts.eraseIdx (i - (k + 1)).toNat := by
        rw [htn]
        rfl
      rw [he]
      have hrec := keepFrom_cons_erase ts (k + 1) i rest (by omega) (by omega) h3
      by_cases hmem : k ∈ rest
      · have h1m : k ∈ i :: rest := List.mem_cons_of_mem _ hmem
        simp only [keepFrom, if_pos hmem, if_pos h1m, hrec]
      · have h1m : k ∉ i :: rest := by
          intro hc
          rcases List.mem_cons.mp hc with hc | hc
          exacts [hk hc, hmem hc]
        simp only [keepFrom, if_neg hmem, if_neg h1m, hrec]

theorem removeLoop_queue (origCI : Int) :
    ∀ (l : List Int) (q : List Track) (ni : Int) (rct : Bool),
    (removeLoop origCI l q ni rct).1 = removeQueue l q
  | [], _, _, _ => rfl
  | i :: rest, q, ni, rct => by
    simp only [removeLoop, removeQueue]
    by_cases h : 0 ≤ i ∧ i < (q.length : Int)
    · rw [if_pos h, if_pos h]
      by_cases h2 : i < ni
      · rw [if_pos h2]
        exact removeLoop_queue origCI rest _ _ _
      · rw [if_neg h2]
        by_cases h3 : i = origCI
        · rw [if_pos h3]
          exact removeLoop_queue origCI rest _ _ _
        · rw [if_neg h3]
          exact removeLoop_queue origCI rest _ _ _
    · rw [if_neg h, if_neg h]
      exact removeLoop_queue origCI rest _ _ _

theorem removeQueue_eq_keepFrom : ∀ (l : List Int) (q : List Track),
    l.Pairwise (· > ·) → removeQueue l q = keepFrom l 0 q
  | [], q, _ => (keepFrom_nil 0 q).symm
  | i :: rest, q, h => by
    rcases List.pairwise_cons.mp h with ⟨hrest, htail⟩
    simp only [removeQueue]
    by_cases hr : 0 ≤ i ∧ i < (q.length : Int)
    · rw [if_pos hr, removeQueue_eq_keepFrom rest _ htail,
        keepFrom_cons_erase q 0 i rest hr.1 (by simpa using hr.2) hrest]
      norm_num
    · rw [if_neg hr, removeQueue_eq_keepFrom rest q htail,
        keepFrom_cons_out q 0 i rest (by omega)]

end QueueManager

/-- Claim C1: the spec invariant says `currentIndex` is always −1 or a valid
index after any `add`/`remove`/`move` sequence, and in particular that no
`remove` call can leave `currentIndex` past the end of the shortened queue.
The code violates this: on the queue `[A, B, C]` with `currentIndex = 2`,
`remove([1, 2])` processes index 2 first (marking the current track removed
and setting the tracked index to 1), then removes index 1 without noticing it
equals the tracked index — the final state has `currentIndex = 1` on a
1-element queue, which is neither −1 nor a valid index. -/
theorem claim_c1_remove_leaves_dangling_cursor :
    (QueueManager.remove ⟨[trackA, trackB, trackC], 2⟩ [1, 2]).state.queue.length = 1 ∧
    (QueueManager.remove ⟨[trackA, trackB, trackC], 2⟩ [1, 2]).state.currentIndex = 1 ∧
    ¬((QueueManager.remove ⟨[trackA, trackB, trackC], 2⟩ [1, 2]).state.currentIndex = -1 ∨
      (0 ≤ (QueueManager.remove ⟨[trackA, trackB, trackC], 2⟩ [1, 2]).state.currentIndex ∧
       (QueueManager.remove ⟨[trackA, trackB, trackC], 2⟩ [1, 2]).state.currentIndex <
         ((QueueManager.remove ⟨[trackA, trackB, trackC], 2⟩ [1, 2]).state.queue.length : Int))) := by
  decide

/-- Claim C4 counterexample: the claim states that duplicate indices are
silently ignored, so that `remove([1, 1])` on a 3-track queue removes only one
track.  In the code the second occurrence of index 1 is still in range of the
already-shrunk queue and removes a further track: the result is `[A]`, not a
2-track queue. -/
theorem claim_c4_counterexample :
    (QueueManager.remove ⟨[trackA, trackB, trackC], 0⟩ [1, 1]).state.queue = [trackA] ∧
    (QueueManager.remove ⟨[trackA, trackB, trackC], 0⟩ [1, 1]).state.queue.length ≠ 2 := by
  decide

/-- Claim C4 (amended): for every queue and every duplicate-free list of
removal indices, `remove` deletes exactly the tracks at the in-range indices
of the input; out-of-range indices are silently ignored and cause no
additional removal.  (Duplicate indices, however, are not ignored: each
further occurrence removes another track while it remains in range of the
shrunken queue.) -/
theorem claim_c4_remove_distinct_indices (st : QueueState) (indices : List Int)
    (h : indices.Nodup) :
    (QueueManager.remove st indices).state.queue =
      QueueManager.keepFrom indices 0 st.queue := by
  by_cases he : indices = []
  · subst he
    simp [QueueManager.remove, QueueManager.keepFrom_nil]
  · have hperm := QueueManager.perm_sortDesc indices
    have hnd : (QueueManager.sortDesc indices).Nodup := hperm.nodup_iff.mpr h
    have hgt : (QueueManager.sortDesc indices).Pairwise (· > ·) :=
      ((QueueManager.pairwise_ge_sortDesc indices).and hnd).imp
        (fun hab => lt_of_le_of_ne hab.1 (Ne.symm hab.2))
    simp only [QueueManager.remove, if_neg he]
    rw [QueueManager.removeLoop_queue, QueueManager.removeQueue_eq_keepFrom _ _ hgt,
      QueueManager.keepFrom_congr st.queue 0 _ indices (fun j => hperm.mem_iff)]

/-- Claim C4 witness: removing the distinct index list `[5, 1, -2]` (one valid
index, one too large, one negative) from `[A, B, C]` deletes exactly track B. -/
theorem claim_c4_witness :
    (QueueManager.remove ⟨[trackA, trackB, trackC], 0⟩ [5, 1, -2]).state.queue =
      [trackA, trackC] := by
  rw [claim_c4_remove_distinct_indices ⟨[trackA, trackB, trackC], 0⟩ [5, 1, -2] (by decide)]
  decide

/-- Claim C10: for a non-empty track list and an `insertBeforeIndex` that is
negative or greater than the queue length, `add` does not error: it appends
the tracks at the end without shifting the cursor, and if the queue was empty
with no current track the cursor still snaps to 0. -/
theorem claim_c10_add_out_of_range_appends (st : QueueState) (tracks : List Track) (i : Int)
    (hts : tracks ≠ []) (hi : i < 0 ∨ (st.queue.length : Int) < i) :
    QueueManager.add st tracks (some i) =
      { queue := st.queue ++ tracks,
        currentIndex :=
          if st.queue.length = 0 ∧ st.currentIndex = -1 then 0 else st.currentIndex } := by
  have hcond : ¬(0 ≤ i ∧ i ≤ (st.queue.length : Int)) := by omega
  simp only [QueueManager.add, if_neg hts, if_neg hcond]
  by_cases hw : st.queue.length = 0 ∧ st.currentIndex = -1
  · rw [if_pos hw, if_pos hw]
  · rw [if_neg hw, if_neg hw]

/-- Claim C10 witness: `add([B], insertBeforeIndex = 5)` on the 1-track queue
`[A]` with cursor 0 appends B and keeps the cursor at 0. -/
theorem claim_c10_witness :
    QueueManager.add ⟨[trackA], 0⟩ [trackB] (some 5) = ⟨[trackA, trackB], 0⟩ := by
  have h := claim_c10_add_out_of_range_appends ⟨[trackA], 0⟩ [trackB] 5 (by decide) (by norm_num)
  simpa using h

theorem foldl_max_init_le : ∀ (l : List ℚ) (a : ℚ), a ≤ l.foldl max a
  | [], _ => le_refl _
  | x :: xs, a => le_trans (le_max_left a x) (foldl_max_init_le xs (max a x))

theorem foldl_max_of_le : ∀ (l : List ℚ) (a : ℚ), (∀ x ∈ l, x ≤ a) → l.foldl max a = a
  | [], _, _ => rfl
  | x :: xs, a, h => by
    have hx : max a x = a := max_eq_left (h x (List.mem_cons_self x xs))
    simp only [List.foldl_cons, hx]
    exact foldl_max_of_le xs a (fun y hy => h y (List.mem_cons_of_mem x hy))

namespace EqualizerManager

theorem maxGain_foldl_eq : ∀ (bands : List EqualizerBand) (a : ℚ),
    bands.foldl (fun m b => if b.gain > m then b.gain else m) a =
      (bands.map (·.gain)).foldl max a
  | [], _ => rfl
  | b :: bs, a => by
    have hstep : (if b.gain > a then b.gain else a) = max a b.gain := by
      rcases le_or_lt b.gain a with h | h
      · rw [if_neg (not_lt.mpr h), max_eq_left h]
      · rw [if_pos h, max_eq_right (le_of_lt h)]
    simp only [List.foldl_cons, List.map_cons, hstep, maxGain_foldl_eq bs (max a b.gain)]

theorem calculatePreAmpGain_bands (s : EqualizerState) :
    (calculatePreAmpGain s).bands = s.bands := by
  simp only [calculatePreAmpGain]
  split <;> split <;> rfl

theorem calculatePreAmpGain_preAmpGain (s : EqualizerState) :
    (calculatePreAmpGain s).preAmpGain = specPreAmp s.bands := by
  have hM : (0 : ℚ) ≤ (s.bands.map (·.gain)).foldl max 0 := foldl_max_init_le _ 0
  have hpos :
      (if (s.bands.map (·.gain)).foldl max 0 > 0 then -((s.bands.map (·.gain)).foldl max 0)
        else 0) = specPreAmp s.bands := by
    simp only [specPreAmp]
    split
    · rfl
    · next h =>
      have h0 : (s.bands.map (·.gain)).foldl max 0 = 0 := le_antisymm (not_lt.mp h) hM
      rw [h0, neg_zero]
  simp only [calculatePreAmpGain, maxGain_foldl_eq]
  rw [hpos]
  split
  · rfl
  · next h => exact (not_ne_iff.mp h).symm

theorem map_freq_set : ∀ (l : List EqualizerBand) (n : Nat) (b : EqualizerBand) (g : ℚ),
    l.get? n = some b →
    (l.set n { b with gain := g }).map (·.frequency) = l.map (·.frequency)
  | [], _, _, _, h => by simp at h
  | x :: xs, 0, b, g, h => by
    simp only [List.get?] at h
    injection h with h
    subst h
    simp [List.set]
  | x :: xs, n + 1, b, g, h => by
    simp only [List.get?] at h
    simp only [List.set, List.map_cons]
    rw [map_freq_set xs n b g h]

theorem applyGains_length : ∀ (bs : List EqualizerBand) (gs : List ℚ),
    (applyGains bs gs).length = bs.length
  | [], gs => by cases gs <;> rfl
  | _ :: _, [] => rfl
  | b :: bs, g :: gs => by simp [applyGains, applyGains_length bs gs]

theorem applyGains_freq : ∀ (bs : List EqualizerBand) (gs : List ℚ),
    (applyGains bs gs).map (·.frequency) = bs.map (·.frequency)
  | [], gs => by cases gs <;> rfl
  | _ :: _, [] => rfl
  | b :: bs, g :: gs => by simp [applyGains, applyGains_freq bs gs]

end EqualizerManager

/-- Claim C2: for any equalizer state and any in-range band index, after
`setBandGain(i, g)` the stored gain of band `i` is `g` clamped to
`[−12, +12]`, the stored pre-amp gain equals `−max(0, maximum stored gain)`,
and in particular it is 0 whenever every stored gain is ≤ 0. -/
theorem claim_c2_setBandGain_clamps_and_compensates (s : EqualizerState) (i : Int) (g : ℚ)
    (h0 : 0 ≤ i) (hlen : i < (s.bands.length : Int)) :
    ∃ s', EqualizerManager.setBandGain s i g = some s' ∧
      (s'.bands.get? i.toNat).map (·.gain) = some (EqualizerManager.clampGain g) ∧
      s'.preAmpGain = EqualizerManager.specPreAmp s'.bands ∧
      ((∀ b ∈ s'.bands, b.gain ≤ 0) → s'.preAmpGain = 0) := by
  have hne : ¬(i < 0 ∨ (s.bands.length : Int) ≤ i) := by omega
  have hnat : i.toNat < s.bands.length := by omega
  obtain ⟨band, hband⟩ : ∃ band, s.bands.get? i.toNat = some band :=
    ⟨s.bands.get ⟨i.toNat, hnat⟩, List.get?_eq_get hnat⟩
  refine ⟨EqualizerManager.calculatePreAmpGain
      { s with
        bands := s.bands.set i.toNat { band with gain := EqualizerManager.clampGain g } },
    ?_, ?_, ?_, ?_⟩
  · simp only [EqualizerManager.setBandGain, if_neg hne, hband]
  · rw [EqualizerManager.calculatePreAmpGain_bands, List.get?_set_eq, hband]
    rfl
  · rw [EqualizerManager.calculatePreAmpGain_preAmpGain,
      EqualizerManager.calculatePreAmpGain_bands]
  · intro hle
    rw [EqualizerManager.calculatePreAmpGain_bands] at hle
    rw [EqualizerManager.calculatePreAmpGain_preAmpGain]
    have hall :
        ∀ x ∈ (s.bands.set i.toNat
            { band with gain := EqualizerManager.clampGain g }).map (·.gain), x ≤ 0 := by
      intro x hx
      obtain ⟨b, hb, rfl⟩ := List.mem_map.mp hx
      exact hle b hb
    show -(((s.bands.set i.toNat
        { band with gain := EqualizerManager.clampGain g }).map (·.gain)).foldl max 0) = 0
    rw [foldl_max_of_le _ 0 hall, neg_zero]

set_option maxRecDepth 8000 in
/-- Claim C2 witness: `setBandGain(0, 20)` on the default state stores gain 12
(the clamp) and yields pre-amp gain −12. -/
theorem claim_c2_witness :
    ∃ s', EqualizerManager.setBandGain EqualizerManager.initial 0 20 = some s' ∧
      (s'.bands.get? 0).map (·.gain) = some 12 ∧ s'.preAmpGain = -12 := by
  obtain ⟨s', h1, -, -, -⟩ :=
    claim_c2_setBandGain_clamps_and_compensates EqualizerManager.initial 0 20
      (by norm_num) (by decide)
  have hpre : (EqualizerManager.setBandGain EqualizerManager.initial 0 20).map
      (fun t => t.preAmpGain) = some (-12) := by decide
  have hgain : (EqualizerManager.setBandGain EqualizerManager.initial 0 20).map
      (fun t => (t.bands.get? 0).map (·.gain)) = some (some 12) := by decide
  rw [h1] at hpre hgain
  simp only [Option.map_some', Option.some.injEq] at hpre hgain
  exact ⟨s', h1, hgain, hpre⟩

theorem applyEqOp_bands_length (s : EqualizerState) (op : EqOp) :
    (applyEqOp s op).bands.length = s.bands.length := by
  cases op with
  | setEnabled e =>
    simp only [applyEqOp, EqualizerManager.setEnabled]
    split <;> rfl
  | setBandGain i g =>
    simp only [applyEqOp, EqualizerManager.setBandGain]
    split
    · simp
    · cases hg : s.bands.get? i.toNat with
      | none => simp [hg]
      | some band => simp [hg, EqualizerManager.calculatePreAmpGain_bands]
  | setBands bs =>
    simp only [applyEqOp, EqualizerManager.setBands]
    split
    · simp
    · next h =>
      have hlen := not_ne_iff.mp h
      simp [EqualizerManager.calculatePreAmpGain_bands, hlen]
  | setPreset p =>
    simp [applyEqOp, EqualizerManager.setPreset, EqualizerManager.calculatePreAmpGain_bands,
      EqualizerManager.applyGains_length]
  | reset =>
    simp [applyEqOp, EqualizerManager.reset, EqualizerManager.calculatePreAmpGain_bands]

theorem applyEqOp_freq (s : EqualizerState) (op : EqOp) (h : op.isSetBands = false) :
    (applyEqOp s op).bands.map (·.frequency) = s.bands.map (·.frequency) := by
  cases op with
  | setEnabled e =>
    simp only [applyEqOp, EqualizerManager.setEnabled]
    split <;> rfl
  | setBandGain i g =>
    simp only [applyEqOp, EqualizerManager.setBandGain]
    split
    · simp
    · cases hg : s.bands.get? i.toNat with
      | none => simp [hg]
      | some band =>
        simp only [hg, Option.getD_some]
        rw [EqualizerManager.calculatePreAmpGain_bands]
        exact EqualizerManager.map_freq_set s.bands i.toNat band _ hg
  | setBands bs => simp [EqOp.isSetBands] at h
  | setPreset p =>
    simp only [applyEqOp, EqualizerManager.setPreset]
    rw [EqualizerManager.calculatePreAmpGain_bands]
    exact EqualizerManager.applyGains_freq s.bands (presetGains p)
  | reset =>
    simp only [applyEqOp, EqualizerManager.reset]
    rw [EqualizerManager.calculatePreAmpGain_bands, List.map_map]
    rfl

theorem foldl_applyEqOp_length : ∀ (ops : List EqOp) (s : EqualizerState),
    (ops.foldl applyEqOp s).bands.length = s.bands.length
  | [], _ => rfl
  | op :: ops, s => by
    simp only [List.foldl_cons]
    rw [foldl_applyEqOp_length ops (applyEqOp s op), applyEqOp_bands_length]

theorem foldl_applyEqOp_freq : ∀ (ops : List EqOp) (s : EqualizerState),
    (∀ op ∈ ops, op.isSetBands = false) →
    (ops.foldl applyEqOp s).bands.map (·.frequency) = s.bands.map (·.frequency)
  | [], _, _ => rfl
  | op :: ops, s, h => by
    simp only [List.foldl_cons]
    rw [foldl_applyEqOp_freq ops (applyEqOp s op)
        (fun o ho => h o (List.mem_cons_of_mem op ho)),
      applyEqOp_freq s op (h op (List.mem_cons_self op ops))]

set_option maxRecDepth 8000 in
/-- Claim C5 counterexample: the claim says no operation ever reassigns a
frequency, but `setBands` overwrites each slot's frequency with the
caller-supplied value: bulk-setting ten bands of frequency 0 changes the
stored frequencies away from the fixed table. -/
theorem claim_c5_counterexample :
    ([EqOp.setBands (List.replicate 10 ⟨0, 0, 1⟩)].foldl applyEqOp
        EqualizerManager.initial).bands.map (·.frequency) ≠ EQUALIZER_FREQUENCIES := by
  decide

/-- Claim C5 (amended): over every sequence of equalizer operations the bands
array always has exactly 10 entries, and as long as the sequence contains no
`setBands` call the frequencies remain the fixed ten values in order.
(`setBands`, however, overwrites each slot's frequency with the
caller-supplied value.) -/
theorem claim_c5_bands_invariant (ops : List EqOp) :
    (ops.foldl applyEqOp EqualizerManager.initial).bands.length = 10 ∧
    ((∀ op ∈ ops, op.isSetBands = false) →
      (ops.foldl applyEqOp EqualizerManager.initial).bands.map (·.frequency) =
        EQUALIZER_FREQUENCIES) := by
  constructor
  · rw [foldl_applyEqOp_length]
    decide
  · intro h
    rw [foldl_applyEqOp_freq ops _ h]
    decide

/-- Claim C5 witness: a concrete `setPreset`/`setBandGain`/`reset` sequence
keeps ten bands at the fixed frequencies. -/
theorem claim_c5_witness :
    (eqOpsExample.foldl applyEqOp EqualizerManager.initial).bands.length = 10 ∧
    (eqOpsExample.foldl applyEqOp EqualizerManager.initial).bands.map (·.frequency) =
      EQUALIZER_FREQUENCIES :=
  ⟨(claim_c5_bands_invariant eqOpsExample).1,
    (claim_c5_bands_invariant eqOpsExample).2 (by decide)⟩

theorem updateState_state (p : Player) (s : State) : (updateState p s).1.state = s := by
  simp only [updateState]
  split
  · rfl
  · next h => exact not_ne_iff.mp h

theorem updateState_isChangingTrack (p : Player) (s : State) :
    (updateState p s).1.isChangingTrack = p.isChangingTrack := by
  simp only [updateState]
  split <;> rfl

/-- Claim C9: a state-changed event is emitted exactly when the new state
differs from the old, the stored state always becomes the requested one, and
forcing the same state twice in a row emits exactly one event in total. -/
theorem claim_c9_state_event_iff_changed (p : Player) (s : State) :
    ((updateState p s).2 = [] ↔ p.state = s) ∧
    (updateState p s).1.state = s ∧
    (updateState p s).2.length + (updateState (updateState p s).1 s).2.length =
      (if p.state = s then 0 else 1) := by
  by_cases h : p.state = s <;> simp [updateState, h]

/-- Claim C3: for every initialized player and every capability-gated
operation whose capability is absent from the configured set, the call throws
the capability-not-enabled error for exactly that capability — whose message
names the capability — and returns the player state unchanged (no playback
state, queue, cursor, play intent, or persisted rate mutation) with no events
emitted. -/
theorem claim_c3_capability_gate (a : Adapter) (p : Player) (op : GatedOp)
    (hs : p.isSetup = true) (hc : opCapability op ∉ p.capabilities) :
    runOp a p op =
      ⟨p, [], Except.error (PlayerError.capabilityNotEnabled (opCapability op))⟩ ∧
    errorMessage (PlayerError.capabilityNotEnabled (opCapability op)) =
      capabilityName (opCapability op) ++ " capability not enabled" := by
  refine ⟨?_, rfl⟩
  cases op <;>
    simp_all [runOp, opCapability, playM, pauseM, stopM, skipM, skipToNextM, skipToPreviousM,
      seekToM, seekByM, setVolumeM, setRateM]

/-- Claim C3 witness: `pause()` on an initialized player configured with an
empty capability set throws the pause-capability error and leaves the state
untouched. -/
theorem claim_c3_witness :
    runOp adapterOk playerNoCaps GatedOp.pause =
      ⟨playerNoCaps, [], Except.error (PlayerError.capabilityNotEnabled Capability.pause)⟩ ∧
    errorMessage (PlayerError.capabilityNotEnabled Capability.pause) =
      capabilityName Capability.pause ++ " capability not enabled" := by
  have h := claim_c3_capability_gate adapterOk playerNoCaps GatedOp.pause rfl (by decide)
  simpa using h

/-- Claim C6: with repeat mode `Off` and no next track, the natural-end
callback transitions to `Stopped`, clears `playWhenReady`, and emits a
queue-ended event carrying the last-played index (or null when no track was
active). -/
theorem claim_c6_queue_end_stops (a : Adapter) (p : Player)
    (hmode : p.repeatMode = RepeatMode.off)
    (hend : ¬(p.currentIndex < (p.queue.length : Int) - 1)) :
    (handleTrackEnded a p).1.state = State.stopped ∧
    (handleTrackEnded a p).1.playWhenReady = false ∧
    EventData.playbackQueueEnded
        (if 0 ≤ p.currentIndex then some p.currentIndex else none) ∈
      (handleTrackEnded a p).2 := by
  simp only [handleTrackEnded, hmode]
  rw [if_neg hend]
  exact ⟨updateState_state p State.stopped, rfl,
    List.mem_append.mpr (Or.inr (by simp))⟩

/-- Claim C6 witness: queue `[A, B, C]`, repeat `Off`, playing C (index 2) to
natural end — state `Stopped`, `playWhenReady` false, queue-ended event with
track index 2. -/
theorem claim_c6_witness :
    (handleTrackEnded adapterOk playerAtEnd).1.state = State.stopped ∧
    (handleTrackEnded adapterOk playerAtEnd).1.playWhenReady = false ∧
    EventData.playbackQueueEnded (some 2) ∈ (handleTrackEnded adapterOk playerAtEnd).2 := by
  have h := claim_c6_queue_end_stops adapterOk playerAtEnd rfl (by decide)
  rw [show (if (0 : Int) ≤ playerAtEnd.currentIndex then some playerAtEnd.currentIndex
      else none) = some 2 by norm_num [playerAtEnd]] at h
  exact h

theorem loadTrackFail_spec (p : Player) (e : String) :
    (loadTrackFail p e).res = Except.error (PlayerError.adapterError e) ∧
    (loadTrackFail p e).pl.state = State.error ∧
    (loadTrackFail p e).pl.isChangingTrack = false ∧
    EventData.playbackError ("Failed to load track: " ++ e) none ∈ (loadTrackFail p e).evs :=
  ⟨rfl, updateState_state _ _,
    (updateState_isChangingTrack { p with isChangingTrack := false } State.error),
    List.mem_cons_self _ _⟩

/-- Claim C7: whenever the adapter's `stop` or `load` fails during a track
load (player initialized, no load in flight), `loadTrack` emits a
playback-error event, transitions to the `Error` state, clears the
re-entrancy flag, and rethrows the failure to the awaiting caller. -/
theorem claim_c7_load_failure_dual_channel (a : Adapter) (p : Player) (track : Track)
    (preservePlayState : Bool) (e : String) (hs : p.isSetup = true)
    (hc : p.isChangingTrack = false)
    (hf : a.stopRes = Except.error e ∨
      (a.stopRes = Except.ok () ∧ a.loadRes track = Except.error e)) :
    (loadTrackM a p track preservePlayState).res =
      Except.error (PlayerError.adapterError e) ∧
    (loadTrackM a p track preservePlayState).pl.state = State.error ∧
    (loadTrackM a p track preservePlayState).pl.isChangingTrack = false ∧
    EventData.playbackError ("Failed to load track: " ++ e) none ∈
      (loadTrackM a p track preservePlayState).evs := by
  have hred : loadTrackM a p track preservePlayState =
      loadTrackFail { p with isChangingTrack := true } e := by
    rcases hf with hf | ⟨hstop, hload⟩
    · simp [loadTrackM, hs, hc, hf]
    · simp [loadTrackM, hs, hc, hstop, hload]
  rw [hred]
  exact loadTrackFail_spec _ e

/-- Claim C7 witness: a rejecting `load` on an initialized idle player yields
the rethrown error, the `Error` state, a cleared re-entrancy flag, and the
playback-error event. -/
theorem claim_c7_witness :
    (loadTrackM adapterLoadFail playerReady trackB true).res =
      Except.error (PlayerError.adapterError "network error") ∧
    (loadTrackM adapterLoadFail playerReady trackB true).pl.state = State.error ∧
    (loadTrackM adapterLoadFail playerReady trackB true).pl.isChangingTrack = false ∧
    EventData.playbackError ("Failed to load track: " ++ "network error") none ∈
      (loadTrackM adapterLoadFail playerReady trackB true).evs :=
  claim_c7_load_failure_dual_channel adapterLoadFail playerReady trackB true
    "network error" rfl rfl (Or.inr ⟨rfl, rfl⟩)

/-- Claim C8: for every payload and every registration list, `emit` invokes
each handler in registration order — the resulting world is the unconditional
left fold of every handler's effect, so a throwing handler never prevents the
remaining handlers from running — and the failures are exactly the thrown
messages, reported to the diagnostic sink in order and swallowed (`emit` is a
total function: no handler exception reaches the caller). -/
theorem claim_c8_emit_runs_all_handlers {σ : Type} (handlers : List (EHandler σ))
    (d : EventData) (w : σ) :
    (EventEmitter.emit handlers d w).1 = EventEmitter.applyAll handlers d w ∧
    (EventEmitter.emit handlers d w).2 = EventEmitter.sinkLog handlers d w := by
  induction handlers generalizing w with
  | nil => exact ⟨rfl, rfl⟩
  | cons h rest ih =>
    simp only [EventEmitter.emit, EventEmitter.applyAll, List.foldl_cons, EventEmitter.sinkLog]
    rcases hr : h.run d w with ⟨w', err⟩
    cases err with
    | none => simpa [hr, EventEmitter.applyAll] using ih w'
    | some e => simpa [hr, EventEmitter.applyAll] using ih w'

end TrackPlayer
